import Mathlib

/-!
Verification development for the x-client-transaction-id generator
(src/transaction.ts).

The TypeScript source is shallowly embedded below.  JS numbers that hold
byte values are modelled as `Nat`; the per-call timestamp is modelled as
`Int` (JS bitwise operations on it are expanded into explicit `emod` and
division); the normalized animation time, a JS float obtained by exact
divisions of moderate integers, is modelled as `ℚ`.

External collaborators of the module (per the imports of transaction.ts
and the runtime APIs it calls) appear as explicit parameters or as
faithful models:
  - crypto.subtle.digest becomes a parameter `sha256 : List Nat → List Nat`,
  - the helper `animate` hands its frame row and target time to Cubic,
    interpolate, convertRotationToMatrix and floatToHex (files not part of
    the embedded source); the whole of `animate` is a parameter
    `animate : List Nat → ℚ → String` wherever its output string is opaque
    to the property at hand,
  - `@std/encoding` encodeBase64/decodeBase64 are modelled by the standard
    base64 alphabet functions defined here,
  - TextEncoder().encode is modelled by the UTF-8 encoder defined here,
  - Math.random and Date.now become the parameters `randomNum` and `now`,
  - the DOM document is modelled by the `Doc` structure: the content of the
    twitter-site-verification element and the list of path-data attributes
    (the `d` attribute reached through children[0].children[1]) of the
    elements whose id starts with loading-x-anim, in document order;
    element absence and attribute absence are `none`.
-/

namespace XCT

/-! ### Small character and list utilities -/

def isDigitCh (c : Char) : Bool := c.isDigit

/-- Value of a decimal digit character. -/
def digitVal (c : Char) : Nat := c.toNat - 48

/-- parseInt(str, 10) on a string of decimal digits: left-to-right fold. -/
def digitsToNat (l : List Char) : Nat := l.foldl (fun a c => a * 10 + digitVal c) 0

theorem length_dropWhile_le (p : Char → Bool) (l : List Char) :
    (l.dropWhile p).length ≤ l.length := by
  induction l with
  | nil => simp [List.dropWhile]
  | cons a l ih =>
    rw [List.dropWhile_cons]
    split
    · exact le_trans ih (by simp)
    · simp

/-! ### Standard base64 (models encodeBase64 / decodeBase64 of @std/encoding) -/

def b64Chars : List Char :=
  ['A', 'B', 'C', 'D', 'E', 'F', 'G', 'H', 'I', 'J', 'K', 'L', 'M',
   'N', 'O', 'P', 'Q', 'R', 'S', 'T', 'U', 'V', 'W', 'X', 'Y', 'Z',
   'a', 'b', 'c', 'd', 'e', 'f', 'g', 'h', 'i', 'j', 'k', 'l', 'm',
   'n', 'o', 'p', 'q', 'r', 's', 't', 'u', 'v', 'w', 'x', 'y', 'z',
   '0', '1', '2', '3', '4', '5', '6', '7', '8', '9', '+', '/']

def b64Char (n : Nat) : Char := b64Chars.getD n 'A'

def b64Index (c : Char) : Nat := b64Chars.findIdx (fun d => d = c)

/-- Bytes to base64 sextets, 3 bytes to 4 sextets, with the usual partial
final group. -/
def bytesToSextets : List Nat → List Nat
  | [] => []
  | [b0] => [b0 / 4, b0 % 4 * 16]
  | [b0, b1] => [b0 / 4, b0 % 4 * 16 + b1 / 16, b1 % 16 * 4]
  | b0 :: b1 :: b2 :: rest =>
    (b0 / 4) :: (b0 % 4 * 16 + b1 / 16) :: (b1 % 16 * 4 + b2 / 64) :: (b2 % 64)
      :: bytesToSextets rest

/-- Base64 sextets back to bytes, 4 sextets to 3 bytes, with the usual
partial final group. -/
def sextetsToBytes : List Nat → List Nat
  | s0 :: s1 :: s2 :: s3 :: rest =>
    (s0 * 4 + s1 / 16) :: (s1 % 16 * 16 + s2 / 4) :: (s2 % 4 * 64 + s3)
      :: sextetsToBytes rest
  | [s0, s1] => [s0 * 4 + s1 / 16]
  | [s0, s1, s2] => [s0 * 4 + s1 / 16, s1 % 16 * 16 + s2 / 4]
  | _ => []

def padChars (n : Nat) : List Char :=
  if n % 3 = 1 then ['=', '='] else if n % 3 = 2 then ['='] else []

/-- Standard base64 encoding with padding (models encodeBase64). -/
def encodeBase64 (bytes : List Nat) : String :=
  String.mk ((bytesToSextets bytes).map b64Char ++ padChars bytes.length)

/-- Models s.replace of every "=" by the empty string. -/
def stripEq (s : String) : String :=
  String.mk (s.toList.filter (fun c => c ≠ '='))

/-- Base64 decoding of an unpadded string. -/
def decodeBase64NoPad (s : String) : List Nat :=
  sextetsToBytes (s.toList.map b64Index)

/-- Standard base64 decoding, padding tolerated (models decodeBase64). -/
def decodeBase64Std (s : String) : List Nat :=
  sextetsToBytes ((s.toList.filter (fun c => c ≠ '=')).map b64Index)

theorem b64Index_b64Char : ∀ n < 64, b64Index (b64Char n) = n := by decide

theorem b64Char_ne_pad : ∀ n : Nat, b64Char n ≠ '=' := by
  intro n
  by_cases h : n < 64
  · have hall : ∀ m, m < 64 → b64Char m ≠ '=' := by decide
    exact hall n h
  · have hlen : b64Chars.length = 64 := rfl
    have hd : b64Chars.getD n 'A' = 'A' := List.getD_eq_default _ _ (by omega)
    show b64Chars.getD n 'A' ≠ '='
    rw [hd]
    decide

theorem bytesToSextets_lt : ∀ bs : List Nat, (∀ b ∈ bs, b < 256) →
    ∀ x ∈ bytesToSextets bs, x < 64
  | [], _ => by simp [bytesToSextets]
  | [b0], h => by
    have h0 := h b0 (by simp)
    simp only [bytesToSextets, List.mem_cons, List.not_mem_nil, or_false]
    rintro x (rfl | rfl) <;> omega
  | [b0, b1], h => by
    have h0 := h b0 (by simp)
    have h1 := h b1 (by simp)
    simp only [bytesToSextets, List.mem_cons, List.not_mem_nil, or_false]
    rintro x (rfl | rfl | rfl) <;> omega
  | b0 :: b1 :: b2 :: rest, h => by
    have h0 := h b0 (by simp)
    have h1 := h b1 (by simp)
    have h2 := h b2 (by simp)
    have ih := bytesToSextets_lt rest (fun b hb => h b (by simp [hb]))
    simp only [bytesToSextets, List.mem_cons]
    rintro x (rfl | rfl | rfl | rfl | hx)
    · omega
    · omega
    · omega
    · omega
    · exact ih x hx

theorem sextetsToBytes_bytesToSextets : ∀ bs : List Nat, (∀ b ∈ bs, b < 256) →
    sextetsToBytes (bytesToSextets bs) = bs
  | [], _ => by simp [bytesToSextets, sextetsToBytes]
  | [b0], h => by
    have h0 := h b0 (by simp)
    simp only [bytesToSextets, sextetsToBytes]
    congr 1
    omega
  | [b0, b1], h => by
    have h0 := h b0 (by simp)
    have h1 := h b1 (by simp)
    simp only [bytesToSextets, sextetsToBytes]
    congr 1
    · omega
    · congr 1; omega
  | b0 :: b1 :: b2 :: rest, h => by
    have h0 := h b0 (by simp)
    have h1 := h b1 (by simp)
    have h2 := h b2 (by simp)
    have ih := sextetsToBytes_bytesToSextets rest (fun b hb => h b (by simp [hb]))
    simp only [bytesToSextets, sextetsToBytes]
    congr 1
    · omega
    congr 1
    · omega
    congr 1
    · omega

/-- Decoding inverts unpadded encoding on genuine byte lists. -/
theorem decode_stripEq_encode (bs : List Nat) (h : ∀ b ∈ bs, b < 256) :
    decodeBase64NoPad (stripEq (encodeBase64 bs)) = bs := by
  have hchars : (stripEq (encodeBase64 bs)).toList = (bytesToSextets bs).map b64Char := by
    show (String.mk _).toList.filter _ = _
    have : (String.mk ((bytesToSextets bs).map b64Char ++ padChars bs.length)).toList
        = (bytesToSextets bs).map b64Char ++ padChars bs.length := rfl
    rw [this, List.filter_append]
    have h1 : ((bytesToSextets bs).map b64Char).filter (fun c => c ≠ '=')
        = (bytesToSextets bs).map b64Char := by
      apply List.filter_eq_self.mpr
      intro a ha
      rcases List.mem_map.mp ha with ⟨n, _, rfl⟩
      simpa using b64Char_ne_pad n
    have h2 : (padChars bs.length).filter (fun c => c ≠ '=') = [] := by
      unfold padChars
      split
      · decide
      split
      · decide
      · rfl
    rw [h1, h2, List.append_nil]
  unfold decodeBase64NoPad
  rw [hchars, List.map_map]
  have hmap : (bytesToSextets bs).map (b64Index ∘ b64Char) = bytesToSextets bs := by
    have : ∀ x ∈ bytesToSextets bs, (b64Index ∘ b64Char) x = id x := by
      intro x hx
      exact b64Index_b64Char x (bytesToSextets_lt bs h x hx)
    rw [List.map_congr_left this, List.map_id]
  rw [hmap]
  exact sextetsToBytes_bytesToSextets bs h

/-! ### UTF-8 (models TextEncoder().encode) -/

def utf8EncodeCh (c : Char) : List Nat :=
  let n := c.toNat
  if n < 128 then [n]
  else if n < 2048 then [192 + n / 64, 128 + n % 64]
  else if n < 65536 then [224 + n / 4096, 128 + n / 64 % 64, 128 + n % 64]
  else [240 + n / 262144, 128 + n / 4096 % 64, 128 + n / 64 % 64, 128 + n % 64]

def utf8Bytes (s : String) : List Nat :=
  (s.toList.map utf8EncodeCh).flatten

/-! ### Frame-table parsing (get2dArray, lines 193-227 of transaction.ts)

The callback of items.map performs
  item.replace(/[^\d]+/g, " ").trim()  then  split(/\s+/)  then  parseInt.
`squashNonDigits` models the replace (every maximal run of non-digit
characters becomes one space), `trimCh` the trim, and `splitWsRuns` the
split on whitespace runs (after squashing, the only whitespace character
present is the single space).
-/

def squashNonDigits : List Char → List Char
  | [] => []
  | c :: cs =>
    if isDigitCh c then c :: squashNonDigits cs
    else ' ' :: squashNonDigits (cs.dropWhile (fun d => !isDigitCh d))
termination_by l => l.length
decreasing_by
  · simp
  · have := length_dropWhile_le (fun d => !isDigitCh d) cs
    simp
    omega

/-- Models String.trim on strings whose only whitespace is the space. -/
def trimCh (l : List Char) : List Char :=
  ((l.dropWhile (fun c => c = ' ')).reverse.dropWhile (fun c => c = ' ')).reverse

/-- Tail worker for `splitWsRuns`; the input is empty or starts with the
separator space. -/
def splitAux : List Char → List (List Char)
  | [] => []
  | _ :: cs =>
    let cs' := cs.dropWhile (fun d => d = ' ')
    cs'.takeWhile (fun d => d ≠ ' ') :: splitAux (cs'.dropWhile (fun d => d ≠ ' '))
termination_by l => l.length
decreasing_by
  have h1 := length_dropWhile_le (fun d => d = ' ') cs
  have h2 := length_dropWhile_le (fun d => d ≠ ' ')
      (cs.dropWhile (fun d => d = ' '))
  simp only [List.length_cons]
  omega

/-- Models s.split on runs of whitespace, including the empty fragments a
leading or trailing run produces. -/
def splitWsRuns (l : List Char) : List (List Char) :=
  l.takeWhile (fun d => d ≠ ' ') :: splitAux (l.dropWhile (fun d => d ≠ ' '))

/-- The row a path segment parses to, exactly as the map callback of
get2dArray computes it. -/
def parseSegment (seg : List Char) : List Nat :=
  let cleaned := trimCh (squashNonDigits seg)
  let parts := if cleaned = [] then [] else splitWsRuns cleaned
  parts.map digitsToNat

/-- Parsing of one d attribute: drop the first 9 characters, split on the
curve command C, parse each segment. -/
def get2dArrayRows (d : String) : List (List Nat) :=
  ((d.toList.drop 9).splitOn 'C').map parseSegment

/-! Specification-side view of the segment parse: the maximal runs of
digit characters, in order. -/

def digitRuns : List Char → List (List Char)
  | [] => []
  | c :: cs =>
    if isDigitCh c then (c :: cs.takeWhile isDigitCh) :: digitRuns (cs.dropWhile isDigitCh)
    else digitRuns (cs.dropWhile (fun d => !isDigitCh d))
termination_by l => l.length
decreasing_by
  · have := length_dropWhile_le isDigitCh cs
    simp
    omega
  · have := length_dropWhile_le (fun d => !isDigitCh d) cs
    simp
    omega

/-- Maximal-token splitter that skips every space; reference point between
the code pipeline and `digitRuns`. -/
def wsTokens : List Char → List (List Char)
  | [] => []
  | c :: cs =>
    if c = ' ' then wsTokens cs
    else (c :: cs.takeWhile (fun d => d ≠ ' ')) :: wsTokens (cs.dropWhile (fun d => d ≠ ' '))
termination_by l => l.length
decreasing_by
  · simp
  · have := length_dropWhile_le (fun d => d ≠ ' ') cs
    simp only [List.length_cons]
    omega

/-! Equivalence of the replace/trim/split pipeline with `digitRuns`. -/

theorem dropWhile_head_false (p : Char → Bool) :
    ∀ (l : List Char) (a : Char) (l' : List Char), l.dropWhile p = a :: l' → p a = false := by
  intro l
  induction l with
  | nil => intro a l' h; simp [List.dropWhile] at h
  | cons b bs ih =>
    intro a l' h
    by_cases hb : p b
    · rw [List.dropWhile_cons] at h
      simp only [hb, if_true] at h
      exact ih a l' h
    · rw [List.dropWhile_cons] at h
      simp only [hb, if_false] at h
      cases h
      simpa using hb

theorem takeWhile_append_all (p : Char → Bool) (l1 l2 : List Char)
    (h : ∀ a ∈ l1, p a = true) : (l1 ++ l2).takeWhile p = l1 ++ l2.takeWhile p := by
  induction l1 with
  | nil => simp
  | cons a l ih =>
    have ha := h a (by simp)
    simp only [List.cons_append, List.takeWhile_cons, ha, if_true]
    rw [ih (fun b hb => h b (by simp [hb]))]

theorem dropWhile_append_all (p : Char → Bool) (l1 l2 : List Char)
    (h : ∀ a ∈ l1, p a = true) : (l1 ++ l2).dropWhile p = l2.dropWhile p := by
  induction l1 with
  | nil => simp
  | cons a l ih =>
    have ha := h a (by simp)
    simp only [List.cons_append, List.dropWhile_cons, ha, if_true]
    exact ih (fun b hb => h b (by simp [hb]))

theorem takeWhile_all (p : Char → Bool) (l : List Char)
    (h : ∀ a ∈ l, p a = true) : l.takeWhile p = l := by
  induction l with
  | nil => simp
  | cons a l ih =>
    have ha := h a (by simp)
    simp only [List.takeWhile_cons, ha, if_true]
    rw [ih (fun b hb => h b (by simp [hb]))]

theorem digit_sat_ne_space (c : Char) (h : isDigitCh c = true) :
    (fun d => decide (d ≠ ' ')) c = true := by
  simp only [decide_eq_true_eq]
  intro he
  subst he
  simp [isDigitCh, Char.isDigit] at h

theorem squash_decomp : ∀ l : List Char,
    squashNonDigits l = l.takeWhile isDigitCh ++ squashNonDigits (l.dropWhile isDigitCh) := by
  intro l
  induction l with
  | nil => simp [squashNonDigits]
  | cons c cs ih =>
    by_cases hc : isDigitCh c
    · simp only [squashNonDigits, hc, if_true, List.takeWhile_cons, List.dropWhile_cons,
        List.cons_append]
      rw [ih]
    · simp only [squashNonDigits, hc, List.takeWhile_cons, List.dropWhile_cons, if_false,
        Bool.false_eq_true, List.nil_append]

theorem squash_nondigit_head_shape (cs : List Char) :
    squashNonDigits (cs.dropWhile isDigitCh) = [] ∨
      ∃ t, squashNonDigits (cs.dropWhile isDigitCh) = ' ' :: t := by
  cases h : cs.dropWhile isDigitCh with
  | nil => left; simp [squashNonDigits]
  | cons a l =>
    right
    have ha : isDigitCh a = false := dropWhile_head_false _ _ _ _ h
    exact ⟨squashNonDigits (l.dropWhile (fun d => !isDigitCh d)),
      by simp [squashNonDigits, ha]⟩

theorem takeWhile_squash (cs : List Char) :
    (squashNonDigits cs).takeWhile (fun d => d ≠ ' ') = cs.takeWhile isDigitCh := by
  rw [squash_decomp cs]
  have hall : ∀ a ∈ cs.takeWhile isDigitCh, (fun d => decide (d ≠ ' ')) a = true := by
    intro a ha
    exact digit_sat_ne_space a (List.mem_takeWhile_imp ha)
  rw [takeWhile_append_all _ _ _ hall]
  rcases squash_nondigit_head_shape cs with h | ⟨t, h⟩
  · rw [h]; simp
  · rw [h]; simp [List.takeWhile_cons]

theorem dropWhile_squash (cs : List Char) :
    (squashNonDigits cs).dropWhile (fun d => d ≠ ' ')
      = squashNonDigits (cs.dropWhile isDigitCh) := by
  rw [squash_decomp cs]
  have hall : ∀ a ∈ cs.takeWhile isDigitCh, (fun d => decide (d ≠ ' ')) a = true := by
    intro a ha
    exact digit_sat_ne_space a (List.mem_takeWhile_imp ha)
  rw [dropWhile_append_all _ _ _ hall]
  rcases squash_nondigit_head_shape cs with h | ⟨t, h⟩
  · rw [h]; simp
  · rw [h]; simp [List.dropWhile_cons]

theorem wsTokens_squash_fuel : ∀ (n : Nat) (s : List Char), s.length ≤ n →
    wsTokens (squashNonDigits s) = digitRuns s
  | _, [], _ => by simp [squashNonDigits, wsTokens, digitRuns]
  | 0, c :: cs, h => by simp at h
  | n + 1, c :: cs, h => by
    have hlen : cs.length ≤ n := by
      simp only [List.length_cons] at h
      omega
    by_cases hc : isDigitCh c
    · have hcs : (cs.dropWhile isDigitCh).length ≤ n :=
        le_trans (length_dropWhile_le _ _) hlen
      have ih := wsTokens_squash_fuel n (cs.dropWhile isDigitCh) hcs
      have hne : ¬ c = ' ' := by
        intro he
        subst he
        simp [isDigitCh, Char.isDigit] at hc
      simp only [squashNonDigits, hc, if_true]
      simp only [wsTokens, hne, if_false]
      rw [takeWhile_squash, dropWhile_squash, ih]
      simp only [digitRuns, hc, if_true]
    · have hcs : (cs.dropWhile (fun d => !isDigitCh d)).length ≤ n :=
        le_trans (length_dropWhile_le _ _) hlen
      have ih := wsTokens_squash_fuel n (cs.dropWhile (fun d => !isDigitCh d)) hcs
      simp only [squashNonDigits, hc, if_false, Bool.false_eq_true]
      simp only [wsTokens, if_true]
      rw [ih]
      simp only [digitRuns, hc, if_false, Bool.false_eq_true]

theorem wsTokens_squash (s : List Char) :
    wsTokens (squashNonDigits s) = digitRuns s :=
  wsTokens_squash_fuel s.length s le_rfl

theorem wsTokens_dropWhile_space : ∀ l : List Char,
    wsTokens (l.dropWhile (fun c => c = ' ')) = wsTokens l := by
  intro l
  induction l with
  | nil => rfl
  | cons c cs ih =>
    rw [List.dropWhile_cons]
    by_cases hc : c = ' '
    · subst hc
      rw [if_pos (by simp)]
      rw [ih]
      simp [wsTokens]
    · rw [if_neg (by simp [hc])]

theorem wsTokens_replicate_space (k : Nat) : wsTokens (List.replicate k ' ') = [] := by
  induction k with
  | zero => simp [wsTokens]
  | succ n ih =>
    rw [List.replicate_succ]
    simp only [wsTokens, if_true]
    exact ih

theorem takeWhile_drop_shape_nil (r : List Char) (k : Nat)
    (hr : r = [] ∨ ∃ t, r = ' ' :: t) :
    (r ++ List.replicate k ' ').takeWhile (fun d => d ≠ ' ') = [] := by
  rcases hr with rfl | ⟨t, rfl⟩
  · cases k with
    | zero => simp
    | succ m => rw [List.nil_append, List.replicate_succ]; simp [List.takeWhile_cons]
  · simp [List.takeWhile_cons]

theorem wsTokens_append_spaces_fuel : ∀ (n : Nat) (y : List Char) (k : Nat), y.length ≤ n →
    wsTokens (y ++ List.replicate k ' ') = wsTokens y
  | _, [], k, _ => by
    rw [List.nil_append, wsTokens_replicate_space k]
    simp [wsTokens]
  | 0, c :: cs, _, h => by simp at h
  | n + 1, c :: cs, k, h => by
    have hlen : cs.length ≤ n := by
      simp only [List.length_cons] at h
      omega
    by_cases hc : c = ' '
    · subst hc
      simp only [List.cons_append, wsTokens, if_true]
      exact wsTokens_append_spaces_fuel n cs k hlen
    · have hcs : cs = cs.takeWhile (fun d => d ≠ ' ') ++ cs.dropWhile (fun d => d ≠ ' ') :=
        (List.takeWhile_append_dropWhile _ _).symm
      have hall : ∀ a ∈ cs.takeWhile (fun d => d ≠ ' '), (fun d => decide (d ≠ ' ')) a = true := by
        intro a ha
        simpa using List.mem_takeWhile_imp ha
      have hshape : cs.dropWhile (fun d => d ≠ ' ') = [] ∨
          ∃ t, cs.dropWhile (fun d => d ≠ ' ') = ' ' :: t := by
        cases hd : cs.dropWhile (fun d => d ≠ ' ') with
        | nil => exact Or.inl rfl
        | cons a l =>
          have := dropWhile_head_false _ _ _ _ hd
          have ha : a = ' ' := by simpa using this
          exact Or.inr ⟨l, by rw [ha]⟩
      have htake : (cs ++ List.replicate k ' ').takeWhile (fun d => d ≠ ' ')
          = cs.takeWhile (fun d => d ≠ ' ') := by
        conv_lhs => rw [hcs]
        rw [List.append_assoc, takeWhile_append_all _ _ _ hall,
          takeWhile_drop_shape_nil _ _ hshape, List.append_nil]
      have hdropeq : (cs ++ List.replicate k ' ').dropWhile (fun d => d ≠ ' ')
          = cs.dropWhile (fun d => d ≠ ' ') ++ List.replicate k ' ' := by
        conv_lhs => rw [hcs]
        rw [List.append_assoc, dropWhile_append_all _ _ _ hall]
        rcases hshape with hnil | ⟨t, ht⟩
        · rw [hnil, List.nil_append]
          cases k with
          | zero => simp
          | succ m =>
            rw [List.replicate_succ, List.dropWhile_cons]
            simp
        · rw [ht]
          simp [List.dropWhile_cons]
      have hrec : (cs.dropWhile (fun d => d ≠ ' ')).length ≤ n :=
        le_trans (length_dropWhile_le _ _) hlen
      simp only [List.cons_append, wsTokens, hc, if_false, Bool.false_eq_true]
      rw [htake, hdropeq, wsTokens_append_spaces_fuel n _ k hrec]

theorem exists_trim_decomp (u : List Char) :
    ∃ j, u.dropWhile (fun c => c = ' ') = trimCh u ++ List.replicate j ' ' := by
  set x := u.dropWhile (fun c => c = ' ') with hx
  refine ⟨(x.reverse.takeWhile (fun c => c = ' ')).length, ?_⟩
  have hsp : x.reverse.takeWhile (fun c => c = ' ')
      = List.replicate (x.reverse.takeWhile (fun c => c = ' ')).length ' ' := by
    apply List.eq_replicate_of_mem
    intro b hb
    simpa using List.mem_takeWhile_imp hb
  have hsplit : x.reverse = x.reverse.takeWhile (fun c => c = ' ')
      ++ x.reverse.dropWhile (fun c => c = ' ') :=
    (List.takeWhile_append_dropWhile _ _).symm
  have hthis : x = (x.reverse.dropWhile (fun c => c = ' ')).reverse
      ++ (x.reverse.takeWhile (fun c => c = ' ')).reverse := by
    conv_lhs => rw [← List.reverse_reverse x, hsplit]
    rw [List.reverse_append]
  have hrev : (x.reverse.takeWhile (fun c => c = ' ')).reverse
      = List.replicate (x.reverse.takeWhile (fun c => c = ' ')).length ' ' := by
    conv_lhs => rw [hsp]
    rw [List.reverse_replicate]
  have htrim : trimCh u = (x.reverse.dropWhile (fun c => c = ' ')).reverse := rfl
  conv_lhs => rw [hthis]
  rw [htrim]
  congr 1

theorem wsTokens_trimCh (u : List Char) : wsTokens (trimCh u) = wsTokens u := by
  obtain ⟨j, hj⟩ := exists_trim_decomp u
  have h1 : wsTokens (u.dropWhile (fun c => c = ' ')) = wsTokens u :=
    wsTokens_dropWhile_space u
  rw [← h1, hj]
  exact (wsTokens_append_spaces_fuel (trimCh u).length (trimCh u) j le_rfl).symm

theorem suffix_getLast? (l1 l2 : List Char) (h : l1 <:+ l2) (hne : l1 ≠ []) :
    l1.getLast? = l2.getLast? := by
  obtain ⟨pre, rfl⟩ := h
  exact (List.getLast?_append_of_ne_nil pre hne).symm

theorem splitAux_eq_wsTokens_fuel : ∀ (n : Nat) (w : List Char), w.length ≤ n →
    (w = [] ∨ w.head? = some ' ') →
    (∀ b, w.getLast? = some b → b ≠ ' ') →
    splitAux w = wsTokens w
  | _, [], _, _, _ => by simp [splitAux, wsTokens]
  | 0, c :: cs, h, _, _ => by simp at h
  | n + 1, c :: cs, h, hhead, hlast => by
    have hc : c = ' ' := by
      rcases hhead with h0 | h0
      · cases h0
      · simpa using h0
    subst hc
    have hlen : cs.length ≤ n := by
      simp only [List.length_cons] at h
      omega
    cases hcs' : cs.dropWhile (fun d => d = ' ') with
    | nil =>
      exfalso
      have hall : ∀ a ∈ cs, a = ' ' := by
        intro a ha
        have := List.dropWhile_eq_nil_iff.mp hcs' a ha
        simpa using this
      have hw : (' ' :: cs) = List.replicate (cs.length + 1) ' ' := by
        apply List.eq_replicate_of_mem
        intro b hb
        rcases List.mem_cons.mp hb with rfl | hb
        · rfl
        · exact hall b hb
      have : (' ' :: cs).getLast? = some ' ' := by
        rw [hw, List.getLast?_eq_head?_reverse, List.reverse_replicate,
          List.replicate_succ]
        rfl
      exact hlast ' ' this rfl
    | cons d ds =>
      have hd : ¬ d = ' ' := by
        have := dropWhile_head_false _ _ _ _ hcs'
        simpa using this
      have hw2head : cs.dropWhile (fun d => d = ' ') = d :: ds := hcs'
      -- unfold both sides
      simp only [splitAux, wsTokens, if_true, hw2head]
      -- left side pieces
      have htk : (d :: ds).takeWhile (fun x => x ≠ ' ') = d :: ds.takeWhile (fun x => x ≠ ' ') := by
        rw [List.takeWhile_cons, if_pos (by simpa using hd)]
      have hdp : (d :: ds).dropWhile (fun x => x ≠ ' ') = ds.dropWhile (fun x => x ≠ ' ') := by
        rw [List.dropWhile_cons, if_pos (by simpa using hd)]
      rw [htk, hdp]
      -- right side: wsTokens cs = wsTokens (d :: ds)
      have hws : wsTokens cs = wsTokens (d :: ds) := by
        rw [← wsTokens_dropWhile_space cs, hw2head]
      rw [hws]
      simp only [wsTokens, hd, if_false, Bool.false_eq_true]
      congr 1
      -- recursive step
      have hsub : (ds.dropWhile (fun x => x ≠ ' ')).length ≤ n := by
        have h1 := length_dropWhile_le (fun x => x ≠ ' ') ds
        have h2 : (d :: ds).length ≤ cs.length := by
          rw [← hw2head]
          exact length_dropWhile_le _ _
        simp only [List.length_cons] at h2
        omega
      have hsuffix : ds.dropWhile (fun x => x ≠ ' ') <:+ (' ' :: cs) := by
        have s1 : ds.dropWhile (fun x => x ≠ ' ') <:+ ds := List.dropWhile_suffix _
        have s2 : ds <:+ d :: ds := List.suffix_cons d ds
        have s3 : d :: ds <:+ cs := by
          rw [← hw2head]
          exact List.dropWhile_suffix _
        have s4 : cs <:+ ' ' :: cs := List.suffix_cons ' ' cs
        exact ((s1.trans s2).trans s3).trans s4
      apply splitAux_eq_wsTokens_fuel n _ hsub
      · cases hwd : ds.dropWhile (fun x => x ≠ ' ') with
        | nil => exact Or.inl rfl
        | cons a l =>
          right
          have := dropWhile_head_false _ _ _ _ hwd
          have ha : a = ' ' := by simpa using this
          rw [ha]
          rfl
      · intro b hb
        cases hwd : ds.dropWhile (fun x => x ≠ ' ') with
        | nil => rw [hwd] at hb; cases hb
        | cons a l =>
          have hne : ds.dropWhile (fun x => x ≠ ' ') ≠ [] := by rw [hwd]; simp
          have := suffix_getLast? _ _ hsuffix hne
          rw [this] at hb
          exact hlast b hb

theorem trimCh_head_not_space (u : List Char) (c : Char) (cs : List Char)
    (h : trimCh u = c :: cs) : ¬ c = ' ' := by
  obtain ⟨j, hj⟩ := exists_trim_decomp u
  rw [h] at hj
  have := dropWhile_head_false (fun d => d = ' ') u c (cs ++ List.replicate j ' ')
    (by rw [hj]; simp)
  simpa using this

theorem trimCh_getLast_not_space (u : List Char) (b : Char)
    (h : (trimCh u).getLast? = some b) : b ≠ ' ' := by
  intro hb
  subst hb
  have hrev : (trimCh u).reverse
      = (u.dropWhile (fun c => c = ' ')).reverse.dropWhile (fun c => c = ' ') := by
    show (((u.dropWhile (fun c => c = ' ')).reverse.dropWhile (fun c => c = ' ')).reverse).reverse = _
    rw [List.reverse_reverse]
  rw [List.getLast?_eq_head?_reverse, hrev] at h
  cases hx : (u.dropWhile (fun c => c = ' ')).reverse.dropWhile (fun c => c = ' ') with
  | nil => rw [hx] at h; cases h
  | cons a l =>
    rw [hx] at h
    have ha : a = ' ' := by
      have : some a = some ' ' := by simpa using h
      simpa using this
    have := dropWhile_head_false _ _ _ _ hx
    rw [ha] at this
    simp at this

/-- The cleaned/trimmed/split pipeline of get2dArray equals the whitespace
tokenizer on every input. -/
theorem trim_split_eq_wsTokens (u : List Char) :
    (if trimCh u = [] then [] else splitWsRuns (trimCh u)) = wsTokens u := by
  cases htr : trimCh u with
  | nil =>
    rw [if_pos rfl, ← wsTokens_trimCh u, htr]
    simp [wsTokens]
  | cons c cs =>
    rw [if_neg (by simp)]
    have hc : ¬ c = ' ' := trimCh_head_not_space u c cs htr
    have hsplit : splitWsRuns (c :: cs)
        = (c :: cs.takeWhile (fun d => d ≠ ' ')) :: splitAux (cs.dropWhile (fun d => d ≠ ' ')) := by
      unfold splitWsRuns
      rw [List.takeWhile_cons, if_pos (by simpa using hc),
        List.dropWhile_cons, if_pos (by simpa using hc)]
    have hws : wsTokens (c :: cs)
        = (c :: cs.takeWhile (fun d => d ≠ ' ')) :: wsTokens (cs.dropWhile (fun d => d ≠ ' ')) := by
      simp only [wsTokens, hc, if_false, Bool.false_eq_true]
    have haux : splitAux (cs.dropWhile (fun d => d ≠ ' '))
        = wsTokens (cs.dropWhile (fun d => d ≠ ' ')) := by
      apply splitAux_eq_wsTokens_fuel (cs.dropWhile (fun d => d ≠ ' ')).length _ le_rfl
      · cases hwd : cs.dropWhile (fun d => d ≠ ' ') with
        | nil => exact Or.inl rfl
        | cons a l =>
          right
          have := dropWhile_head_false _ _ _ _ hwd
          have ha : a = ' ' := by simpa using this
          rw [ha]
          rfl
      · intro b hb
        have hsuffix : cs.dropWhile (fun d => d ≠ ' ') <:+ c :: cs :=
          (List.dropWhile_suffix _).trans (List.suffix_cons c cs)
        cases hwd : cs.dropWhile (fun d => d ≠ ' ') with
        | nil => rw [hwd] at hb; cases hb
        | cons a l =>
          have hne : cs.dropWhile (fun d => d ≠ ' ') ≠ [] := by rw [hwd]; simp
          have heq := suffix_getLast? _ _ hsuffix hne
          rw [heq, ← htr] at hb
          exact trimCh_getLast_not_space u b hb
    rw [← wsTokens_trimCh u, htr]
    rw [hsplit, hws, haux]

/-- The map callback of get2dArray computes exactly the values of the
maximal digit runs of its segment. -/
theorem parseSegment_eq_digitRuns (seg : List Char) :
    parseSegment seg = (digitRuns seg).map digitsToNat := by
  show (if trimCh (squashNonDigits seg) = [] then []
      else splitWsRuns (trimCh (squashNonDigits seg))).map digitsToNat
    = (digitRuns seg).map digitsToNat
  rw [trim_split_eq_wsTokens (squashNonDigits seg), wsTokens_squash]

/-! ### Index extraction (getIndices, lines 93-137 of transaction.ts)

INDICES_REGEX matches an opening parenthesis, a word character, an opening
square bracket, one or two digits (captured), a closing square bracket, a
comma, optional whitespace, the literal 16 and a closing parenthesis.  The
global exec loop collects the captured digits left to right, resuming each
scan after the end of the previous match.  `matchIndicesAt` tries the
pattern at one position; `scanIndices` is the exec loop.
-/

def isWordCh (c : Char) : Bool := c.isAlphanum || c = '_'

def isSpaceCh (c : Char) : Bool :=
  c = ' ' || c = '\t' || c = '\n' || c = '\r' || c = '\x0b' || c = '\x0c'

/-- Continuation of the pattern after the closing square bracket: a comma,
optional whitespace, the literal 16 and the closing parenthesis. -/
def matchClose (n : Nat) : List Char → Option (Nat × List Char)
  | ',' :: rest =>
    match rest.dropWhile isSpaceCh with
    | '1' :: '6' :: ')' :: rest2 => some (n, rest2)
    | _ => none
  | _ => none

/-- One attempt of INDICES_REGEX anchored at the head of the input; on
success returns the captured index value and the text after the match. -/
def matchIndicesAt (s : List Char) : Option (Nat × List Char) :=
  match s with
  | '(' :: w :: '[' :: d1 :: rest =>
    if isWordCh w && d1.isDigit then
      match rest with
      | ']' :: rest2 => matchClose (digitVal d1) rest2
      | d2 :: ']' :: rest2 =>
        if d2.isDigit then matchClose (digitVal d1 * 10 + digitVal d2) rest2 else none
      | _ => none
    else none
  | _ => none

theorem matchClose_length (n : Nat) (l : List Char) (m : Nat) (r : List Char)
    (h : matchClose n l = some (m, r)) : r.length + 4 ≤ l.length := by
  unfold matchClose at h
  split at h
  · rename_i rest
    split at h
    · rename_i rest2 heq
      simp only [Option.some.injEq, Prod.mk.injEq] at h
      obtain ⟨rfl, rfl⟩ := h
      have hd := length_dropWhile_le isSpaceCh rest
      rw [heq] at hd
      simp only [List.length_cons] at hd ⊢
      omega
    · cases h
  · cases h

theorem matchIndicesAt_length (s : List Char) (n : Nat) (r : List Char)
    (h : matchIndicesAt s = some (n, r)) : r.length < s.length := by
  unfold matchIndicesAt at h
  split at h
  · split at h
    · split at h
      · have := matchClose_length _ _ _ _ h
        simp only [List.length_cons] at this ⊢
        omega
      · split at h
        · have := matchClose_length _ _ _ _ h
          simp only [List.length_cons] at this ⊢
          omega
        · cases h
      · cases h
    · cases h
  · cases h

/-- The global exec loop of getIndices: collect every match of
INDICES_REGEX left to right, resuming after each match, trying the next
position after a failure. -/
def scanIndices : List Char → List Nat
  | [] => []
  | c :: cs =>
    match h : matchIndicesAt (c :: cs) with
    | some (n, rest) => n :: scanIndices rest
    | none => scanIndices cs
termination_by l => l.length
decreasing_by
  · exact matchIndicesAt_length _ _ _ h
  · simp

/-- getIndices.  The document is abstracted to whether ON_DEMAND_FILE_REGEX
matches its serialized markup (the captured version string); the network
fetch of the ondemand file is abstracted to its outcome, `none` covering
both a rejected fetch and a non-ok response (the catch block logs and
leaves the collected list empty either way). -/
def getIndices (markerVersion : Option String) (fetched : Option String) :
    Except String (Nat × List Nat) :=
  let keyByteIndices : List Nat :=
    match markerVersion with
    | none => []
    | some _ =>
      match fetched with
      | none => []
      | some text => scanIndices text.toList
  match keyByteIndices with
  | [] => Except.error "IndicesNotFound"
  | n :: rest => Except.ok (n, rest)

/-! ### The document and session model -/

/-- The slice of the DOM document the embedded code reads: the content
attribute of the twitter-site-verification element, and the d attribute of
the probed descendant of each loading-x-anim frame element, in document
order. -/
structure Doc where
  siteVerification : Option String
  frames : List (Option String)

/-- The mutable fields of the ClientTransaction instance. -/
structure Session where
  homePageDocument : Doc
  key : Option String
  keyBytes : Option (List Nat)
  animationKey : Option String
  defaultRowIndex : Option Nat
  defaultKeyBytesIndices : Option (List Nat)
  isInitialized : Bool

/-- getKey: read the content attribute of the verification element, throw
when the element is missing or the content empty. -/
def getKey (d : Doc) : Except String String :=
  match d.siteVerification with
  | some content =>
    if content = "" then Except.error "KeyNotFound" else Except.ok content
  | none => Except.error "KeyNotFound"

/-- getKeyBytes: base64-decode the verification key. -/
def getKeyBytes (key : String) : List Nat := decodeBase64Std key

/-- get2dArray.  `none` on the outside marks the TypeError a JS undefined
element access would raise (keyBytes shorter than 6, or fewer frames than
the selected index); inside, a missing d attribute yields the empty table
and zero frames yield the one-empty-row table, exactly as the source
returns [] and [[]]. -/
def get2dArray (keyBytes : List Nat) (frames : List (Option String)) :
    Option (List (List Nat)) :=
  if frames.isEmpty then some [[]]
  else
    match (if 5 < keyBytes.length then some (keyBytes.getD 5 0 % 4) else none) with
    | none => none
    | some fi =>
      if fi < frames.length then
        match frames.getD fi none with
        | none => some []
        | some d => some (get2dArrayRows d)
      else none

/-- The frameTime fold of getAnimationKey:
reduce((num1, num2) => num1 * (keyBytes[num2] % 16), 1). -/
def frameTimeRaw (kbIndices keyBytes : List Nat) : Nat :=
  kbIndices.foldl (fun num1 num2 => num1 * (keyBytes.getD num2 0 % 16)) 1

/-- Math.round on an exact rational: floor of q + 1/2. -/
def jsRound (q : ℚ) : Int := ⌊q + 1 / 2⌋

/-- frameTime after Math.round(frameTime / 10) * 10. -/
def frameTime (kbIndices keyBytes : List Nat) : Int :=
  jsRound ((frameTimeRaw kbIndices keyBytes : ℚ) / 10) * 10

/-- The normalized time handed to animate, and by animate to
cubic.getValue: frameTime / totalTime with totalTime = 4096. -/
def targetTimeOf (kbIndices keyBytes : List Nat) : ℚ :=
  (frameTime kbIndices keyBytes : ℚ) / 4096

/-- The row-selection part of getAnimationKey: indices guard, rowIndex,
frame table, bounds check.  A row index that JS would compute as NaN
(DEFAULT_ROW_INDEX beyond the key bytes) makes arr[rowIndex] undefined and
is reported as invalid frame data, as is an out-of-range row. -/
def selectFrameRow (rowIdxSrc : Option Nat) (kbIndices : Option (List Nat))
    (keyBytes : List Nat) (frames : List (Option String)) :
    Except String (List Nat) :=
  match rowIdxSrc, kbIndices with
  | some ri, some _ =>
    match get2dArray keyBytes frames with
    | none => Except.error "TypeError"
    | some arr =>
      match (if ri < keyBytes.length then some (keyBytes.getD ri 0 % 16) else none) with
      | none => Except.error "InvalidFrameData"
      | some rowIndex =>
        if rowIndex < arr.length then Except.ok (arr.getD rowIndex [])
        else Except.error "InvalidFrameData"
  | _, _ => Except.error "IndicesNotInitialized"

/-- getAnimationKey: select the frame row, then hand it together with the
normalized target time to animate. -/
def getAnimationKey (animate : List Nat → ℚ → String) (rowIdxSrc : Option Nat)
    (kbIndices : Option (List Nat)) (keyBytes : List Nat)
    (frames : List (Option String)) : Except String String :=
  match selectFrameRow rowIdxSrc kbIndices keyBytes frames with
  | Except.error e => Except.error e
  | Except.ok row => Except.ok (animate row (targetTimeOf (kbIndices.getD []) keyBytes))

/-! ### generateTransactionId (lines 341-395 of transaction.ts) -/

def DEFAULT_KEYWORD : String := "obfiowerehiring"

def ADDITIONAL_RANDOM_NUMBER : Nat := 3

/-- JS truthiness of an optional string: absent and empty are falsy. -/
def jsTruthy (o : Option String) : Option String :=
  match o with
  | some x => if x = "" then none else some x
  | none => none

/-- Left-biased fallback chain, a || b. -/
def jsOr (a b : Option String) : Option String :=
  match a with
  | some x => some x
  | none => b

/-- timeNow = timeNow || Math.floor((Date.now() - 1682924400 * 1000) / 1000):
a supplied value is kept only when truthy, that is nonzero. -/
def resolveTimeNow (timeNowArg : Option Int) (now : Int) : Int :=
  match timeNowArg with
  | some t => if t ≠ 0 then t else (now - 1682924400 * 1000).fdiv 1000
  | none => (now - 1682924400 * 1000).fdiv 1000

/-- The four little-endian bytes [t & 0xff, (t >> 8) & 0xff, (t >> 16) & 0xff,
(t >> 24) & 0xff]; JS coerces t to 32 bits first, which the emod captures. -/
def timeNowBytesOf (t : Int) : List Nat :=
  let u := (t.emod 4294967296).toNat
  [u % 256, u / 256 % 256, u / 65536 % 256, u / 16777216 % 256]

/-- generateTransactionId with the session threaded through explicitly.
The source never assigns any this.* field in this method, so every branch
returns the session it received. -/
def generateTransactionIdS (animate : List Nat → ℚ → String)
    (sha256 : List Nat → List Nat) (now : Int) (randomNum : Nat) (s : Session)
    (method path : String) (response : Option Doc)
    (keyArg animationKeyArg : Option String) (timeNowArg : Option Int) :
    Session × Except String String :=
  if s.isInitialized = false then
    (s, Except.error "NotInitialized")
  else
    let timeNow := resolveTimeNow timeNowArg now
    let timeNowBytes := timeNowBytesOf timeNow
    let keyE : Except String String :=
      match jsOr (jsTruthy keyArg) (jsTruthy s.key) with
      | some k => Except.ok k
      | none => getKey (response.getD s.homePageDocument)
    match keyE with
    | Except.error e => (s, Except.error e)
    | Except.ok key =>
      let keyBytes :=
        if key ≠ "" then getKeyBytes key else (s.keyBytes.getD (getKeyBytes key))
      let akE : Except String String :=
        match jsOr (jsTruthy animationKeyArg) (jsTruthy s.animationKey) with
        | some ak => Except.ok ak
        | none =>
          getAnimationKey animate s.defaultRowIndex s.defaultKeyBytesIndices keyBytes
            (response.getD s.homePageDocument).frames
      match akE with
      | Except.error e => (s, Except.error e)
      | Except.ok animationKey =>
        let data := method ++ "!" ++ path ++ "!" ++ toString timeNow
          ++ DEFAULT_KEYWORD ++ animationKey
        let hashBytes := sha256 (utf8Bytes data)
        let bytesArr := keyBytes ++ timeNowBytes ++ hashBytes.take 16
          ++ [ADDITIONAL_RANDOM_NUMBER]
        let out := (randomNum % 256) :: bytesArr.map (fun b => (b ^^^ randomNum) % 256)
        (s, Except.ok (stripEq (encodeBase64 out)))

/-- The return value of generateTransactionId. -/
def generateTransactionId (animate : List Nat → ℚ → String)
    (sha256 : List Nat → List Nat) (now : Int) (randomNum : Nat) (s : Session)
    (method path : String) (response : Option Doc)
    (keyArg animationKeyArg : Option String) (timeNowArg : Option Int) :
    Except String String :=
  (generateTransactionIdS animate sha256 now randomNum s method path response
    keyArg animationKeyArg timeNowArg).2

/-! ### The per-call payload and the unfolding of generateTransactionId -/

/-- The hash-and-tag payload of one call:
keyBytes ++ timeBytes ++ SHA256(method + "!" + path + "!" + timeNow +
DEFAULT_KEYWORD + animationKey)[0:16] ++ [3]. -/
def payloadOf (sha256 : List Nat → List Nat) (keyBytes : List Nat) (t : Int)
    (method path ak : String) : List Nat :=
  keyBytes ++ timeNowBytesOf t
    ++ (sha256 (utf8Bytes (method ++ "!" ++ path ++ "!" ++ toString t
        ++ DEFAULT_KEYWORD ++ ak))).take 16
    ++ [ADDITIONAL_RANDOM_NUMBER]

theorem timeNowBytesOf_lt (t : Int) : ∀ b ∈ timeNowBytesOf t, b < 256 := by
  intro b hb
  simp only [timeNowBytesOf, List.mem_cons, List.not_mem_nil, or_false] at hb
  rcases hb with rfl | rfl | rfl | rfl <;> omega

theorem payloadOf_lt (sha256 : List Nat → List Nat) (keyBytes : List Nat) (t : Int)
    (method path ak : String)
    (hkb : ∀ b ∈ keyBytes, b < 256)
    (hsha : ∀ m : List Nat, ∀ b ∈ sha256 m, b < 256) :
    ∀ b ∈ payloadOf sha256 keyBytes t method path ak, b < 256 := by
  intro b hb
  simp only [payloadOf, List.mem_append, List.mem_cons, List.not_mem_nil, or_false] at hb
  rcases hb with ((hb | hb) | hb) | rfl
  · exact hkb b hb
  · exact timeNowBytesOf_lt t b hb
  · exact hsha _ b (List.mem_of_mem_take hb)
  · simp [ADDITIONAL_RANDOM_NUMBER]

/-- Unfolding of a generateTransactionId call that resolves the key and the
animation key from the session cache and the time from its argument. -/
theorem generate_resolved (animate : List Nat → ℚ → String)
    (sha256 : List Nat → List Nat) (now : Int) (randomNum : Nat) (s : Session)
    (method path : String) (response : Option Doc) (timeNowArg : Option Int)
    (k ak : String)
    (hinit : s.isInitialized = true)
    (hk : s.key = some k) (hkne : k ≠ "")
    (hak : s.animationKey = some ak) (hakne : ak ≠ "") :
    generateTransactionIdS animate sha256 now randomNum s method path response
        none none timeNowArg
      = (s, Except.ok (stripEq (encodeBase64 ((randomNum % 256) ::
          (payloadOf sha256 (getKeyBytes k) (resolveTimeNow timeNowArg now)
            method path ak).map (fun b => (b ^^^ randomNum) % 256))))) := by
  unfold generateTransactionIdS
  rw [hinit]
  simp only [Bool.true_eq_false, if_false, jsOr, jsTruthy, hk, hak,
    if_neg hkne, if_neg hakne, payloadOf]
  rw [if_pos hkne]

/-- Unfolding with the byte bounds applied: the mask byte and the masked
payload appear unreduced. -/
theorem generate_resolved_bytes (animate : List Nat → ℚ → String)
    (sha256 : List Nat → List Nat) (now : Int) (randomNum : Nat) (s : Session)
    (method path : String) (response : Option Doc) (timeNowArg : Option Int)
    (k ak : String)
    (hinit : s.isInitialized = true)
    (hk : s.key = some k) (hkne : k ≠ "")
    (hak : s.animationKey = some ak) (hakne : ak ≠ "")
    (hmask : randomNum < 256)
    (hsha : ∀ m : List Nat, ∀ b ∈ sha256 m, b < 256)
    (hkb : ∀ b ∈ getKeyBytes k, b < 256) :
    generateTransactionId animate sha256 now randomNum s method path response
        none none timeNowArg
      = Except.ok (stripEq (encodeBase64 (randomNum ::
          (payloadOf sha256 (getKeyBytes k) (resolveTimeNow timeNowArg now)
            method path ak).map (fun b => b ^^^ randomNum)))) := by
  unfold generateTransactionId
  rw [generate_resolved animate sha256 now randomNum s method path response
    timeNowArg k ak hinit hk hkne hak hakne]
  have hmod : randomNum % 256 = randomNum := Nat.mod_eq_of_lt hmask
  have hmap : (payloadOf sha256 (getKeyBytes k) (resolveTimeNow timeNowArg now)
        method path ak).map (fun b => (b ^^^ randomNum) % 256)
      = (payloadOf sha256 (getKeyBytes k) (resolveTimeNow timeNowArg now)
        method path ak).map (fun b => b ^^^ randomNum) := by
    apply List.map_congr_left
    intro b hb
    have hblt : b < 256 :=
      payloadOf_lt sha256 (getKeyBytes k) _ method path ak hkb hsha b hb
    have hxor : b ^^^ randomNum < 256 :=
      Nat.xor_lt_two_pow (n := 8) (by omega) (by omega)
    exact Nat.mod_eq_of_lt hxor
  rw [hmod, hmap]

/-! ### Claim C1 -/

/-- C1: on an initialized session with resolved key bytes, animation key
and time, generateTransactionId returns the standard-alphabet base64
encoding, with every padding character removed, of the byte sequence
[mask] ++ payload.map(b XOR mask), where payload = keyBytes ++ timeBytes
++ SHA256(method + "!" + path + "!" + timeNow + "obfiowerehiring" +
animationKey)[0:16] ++ [3] and mask is the freshly drawn random byte. -/
theorem claim1_output_encoding (animate : List Nat → ℚ → String)
    (sha256 : List Nat → List Nat) (now : Int) (randomNum : Nat) (s : Session)
    (method path : String) (response : Option Doc) (timeNowArg : Option Int)
    (k ak : String)
    (hinit : s.isInitialized = true)
    (hk : s.key = some k) (hkne : k ≠ "")
    (hak : s.animationKey = some ak) (hakne : ak ≠ "")
    (hmask : randomNum < 256)
    (hsha : ∀ m : List Nat, ∀ b ∈ sha256 m, b < 256)
    (hkb : ∀ b ∈ getKeyBytes k, b < 256) :
    generateTransactionId animate sha256 now randomNum s method path response
        none none timeNowArg
      = Except.ok (stripEq (encodeBase64 (randomNum ::
          (payloadOf sha256 (getKeyBytes k) (resolveTimeNow timeNowArg now)
            method path ak).map (fun b => b ^^^ randomNum)))) :=
  generate_resolved_bytes animate sha256 now randomNum s method path response
    timeNowArg k ak hinit hk hkne hak hakne hmask hsha hkb

theorem claim1_witness :
    ((⟨⟨none, []⟩, some "AAEC", none, some "ff", some 0, some [], true⟩ :
        Session).isInitialized = true) ∧
    ("AAEC" : String) ≠ "" ∧ ("ff" : String) ≠ "" ∧ (66 : Nat) < 256 ∧
    (∀ m : List Nat, ∀ b ∈ (fun _ : List Nat => List.replicate 32 7) m, b < 256) ∧
    (∀ b ∈ getKeyBytes "AAEC", b < 256) ∧
    generateTransactionId (fun _ _ => "") (fun _ => List.replicate 32 7) 0 66
        ⟨⟨none, []⟩, some "AAEC", none, some "ff", some 0, some [], true⟩
        "GET" "/path" none none none (some 1000)
      = Except.ok (stripEq (encodeBase64 (66 ::
          (payloadOf (fun _ => List.replicate 32 7) (getKeyBytes "AAEC")
            (resolveTimeNow (some 1000) 0) "GET" "/path" "ff").map
            (fun b => b ^^^ 66)))) := by
  refine ⟨rfl, by decide, by decide, by decide, ?_, by decide, ?_⟩
  · intro m b hb
    rw [List.mem_replicate] at hb
    omega
  · exact claim1_output_encoding (fun _ _ => "") (fun _ => List.replicate 32 7) 0 66
      ⟨⟨none, []⟩, some "AAEC", none, some "ff", some 0, some [], true⟩
      "GET" "/path" none (some 1000) "AAEC" "ff" rfl rfl (by decide) rfl (by decide)
      (by decide)
      (by intro m b hb; rw [List.mem_replicate] at hb; omega)
      (by decide)

/-! ### Claim C2 -/

/-- Little-endian 32-bit read of the first four bytes. -/
def leDecode4 : List Nat → Nat
  | b0 :: b1 :: b2 :: b3 :: _ => b0 + 256 * b1 + 65536 * b2 + 16777216 * b3
  | _ => 0

theorem leDecode4_timeNowBytes (t : Int) (h0 : 0 ≤ t) (h1 : t < 4294967296)
    (rest : List Nat) :
    (leDecode4 (timeNowBytesOf t ++ rest) : Int) = t := by
  have hemod : t.emod 4294967296 = t := Int.emod_eq_of_lt h0 h1
  have hu : ((t.toNat : Int)) = t := Int.toNat_of_nonneg h0
  simp only [timeNowBytesOf, hemod, List.cons_append, List.nil_append, leDecode4]
  push_cast
  omega

/-- C2: base64-decoding a generated identifier and XOR-ing every byte from
index 1 onward with byte 0 reconstructs the payload keyBytes ++ timeBytes
++ digest[0:16] ++ [3] exactly; the recovered leading bytes equal the key
bytes, and the recovered four time bytes decode little-endian to the
resolved timeNow whenever it lies in [0, 2^32). -/
theorem claim2_roundtrip (animate : List Nat → ℚ → String)
    (sha256 : List Nat → List Nat) (now : Int) (randomNum : Nat) (s : Session)
    (method path : String) (response : Option Doc) (timeNowArg : Option Int)
    (k ak : String)
    (hinit : s.isInitialized = true)
    (hk : s.key = some k) (hkne : k ≠ "")
    (hak : s.animationKey = some ak) (hakne : ak ≠ "")
    (hmask : randomNum < 256)
    (hsha : ∀ m : List Nat, ∀ b ∈ sha256 m, b < 256)
    (hkb : ∀ b ∈ getKeyBytes k, b < 256)
    (h0t : 0 ≤ resolveTimeNow timeNowArg now)
    (h1t : resolveTimeNow timeNowArg now < 4294967296) :
    ∃ id, generateTransactionId animate sha256 now randomNum s method path response
        none none timeNowArg = Except.ok id ∧
      decodeBase64NoPad id
        = randomNum :: (payloadOf sha256 (getKeyBytes k)
            (resolveTimeNow timeNowArg now) method path ak).map
            (fun b => b ^^^ randomNum) ∧
      (decodeBase64NoPad id).tail.map (fun b => b ^^^ (decodeBase64NoPad id).headD 0)
        = payloadOf sha256 (getKeyBytes k) (resolveTimeNow timeNowArg now)
            method path ak ∧
      ((decodeBase64NoPad id).tail.map
          (fun b => b ^^^ (decodeBase64NoPad id).headD 0)).take (getKeyBytes k).length
        = getKeyBytes k ∧
      (leDecode4 (((decodeBase64NoPad id).tail.map
          (fun b => b ^^^ (decodeBase64NoPad id).headD 0)).drop
            (getKeyBytes k).length) : Int)
        = resolveTimeNow timeNowArg now := by
  set t := resolveTimeNow timeNowArg now with ht
  set payload := payloadOf sha256 (getKeyBytes k) t method path ak with hpayload
  have hplt : ∀ b ∈ payload, b < 256 :=
    payloadOf_lt sha256 (getKeyBytes k) t method path ak hkb hsha
  set out := randomNum :: payload.map (fun b => b ^^^ randomNum) with hout
  have houtlt : ∀ b ∈ out, b < 256 := by
    intro b hb
    rw [hout, List.mem_cons] at hb
    rcases hb with rfl | hb
    · exact hmask
    · rcases List.mem_map.mp hb with ⟨a, ha, rfl⟩
      exact Nat.xor_lt_two_pow (n := 8) (by have := hplt a ha; omega) (by omega)
  refine ⟨stripEq (encodeBase64 out), ?_, ?_, ?_, ?_, ?_⟩
  · rw [generate_resolved_bytes animate sha256 now randomNum s method path response
      timeNowArg k ak hinit hk hkne hak hakne hmask hsha hkb]
  · rw [decode_stripEq_encode out houtlt]
  · rw [decode_stripEq_encode out houtlt, hout]
    simp only [List.tail_cons, List.headD_cons, List.map_map]
    have : payload.map ((fun b => b ^^^ randomNum) ∘ (fun b => b ^^^ randomNum))
        = payload.map id := by
      apply List.map_congr_left
      intro a _
      simp only [Function.comp_apply, id_eq]
      exact Nat.xor_cancel_right randomNum a
    rw [this, List.map_id]
  · rw [decode_stripEq_encode out houtlt, hout]
    simp only [List.tail_cons, List.headD_cons, List.map_map]
    have : payload.map ((fun b => b ^^^ randomNum) ∘ (fun b => b ^^^ randomNum))
        = payload.map id := by
      apply List.map_congr_left
      intro a _
      simp only [Function.comp_apply, id_eq]
      exact Nat.xor_cancel_right randomNum a
    rw [this, List.map_id, hpayload, payloadOf]
    rw [List.append_assoc, List.append_assoc]
    exact List.take_left (getKeyBytes k) _
  · rw [decode_stripEq_encode out houtlt, hout]
    simp only [List.tail_cons, List.headD_cons, List.map_map]
    have : payload.map ((fun b => b ^^^ randomNum) ∘ (fun b => b ^^^ randomNum))
        = payload.map id := by
      apply List.map_congr_left
      intro a _
      simp only [Function.comp_apply, id_eq]
      exact Nat.xor_cancel_right randomNum a
    rw [this, List.map_id, hpayload, payloadOf]
    rw [List.append_assoc, List.append_assoc]
    rw [List.drop_left (getKeyBytes k) _]
    exact leDecode4_timeNowBytes t h0t h1t _

/-! ### Claim C3 -/

/-- C3 counterexample: with DEFAULT_ROW_INDEX = 0, key bytes
[1,0,0,0,0,0] and one frame parsing to [[1,2],[3,4]], the row handed to
animate is the parsed table at index keyBytes[0] mod 16 = 1, that is
[3,4], not the row at index keyBytes[5] mod 4 = 0, which is [1,2]. -/
theorem claim3_counterexample :
    selectFrameRow (some 0) (some []) [1, 0, 0, 0, 0, 0]
        [some "MABCDEFGH1 2C3 4"] = Except.ok [3, 4] ∧
    (get2dArrayRows "MABCDEFGH1 2C3 4").getD
        ((([1, 0, 0, 0, 0, 0] : List Nat).getD 5 0) % 4) [] = [1, 2] ∧
    ([3, 4] : List Nat) ≠ [1, 2] := by
  refine ⟨?_, ?_, by decide⟩
  · simp [selectFrameRow, get2dArray, get2dArrayRows, parseSegment, trimCh,
      splitWsRuns, splitAux, squashNonDigits, digitsToNat, digitVal, isDigitCh,
      List.splitOn]
  · simp [get2dArrayRows, parseSegment, trimCh, splitWsRuns, splitAux,
      squashNonDigits, digitsToNat, digitVal, isDigitCh, List.splitOn]

/-- C3 amended: keyBytes[5] mod 4 selects which frame element is parsed;
the row of the parsed table that is handed to animate is the one at index
keyBytes[DEFAULT_ROW_INDEX] mod 16. -/
theorem claim3_row_selection (ri : Nat) (kbIdx keyBytes : List Nat)
    (frames : List (Option String)) (d : String)
    (hne : frames ≠ []) (h5 : 5 < keyBytes.length) (hri : ri < keyBytes.length)
    (hf : keyBytes.getD 5 0 % 4 < frames.length)
    (hd : frames.getD (keyBytes.getD 5 0 % 4) none = some d)
    (hrow : keyBytes.getD ri 0 % 16 < (get2dArrayRows d).length) :
    selectFrameRow (some ri) (some kbIdx) keyBytes frames
      = Except.ok ((get2dArrayRows d).getD (keyBytes.getD ri 0 % 16) []) := by
  have hempty : frames.isEmpty = false := by
    cases frames
    · exact absurd rfl hne
    · rfl
  simp only [selectFrameRow, get2dArray, hempty, Bool.false_eq_true, if_false,
    h5, if_true, hf, hd, hri, hrow]

theorem claim3_witness :
    (([some "MABCDEFGH1 2C3 4"] : List (Option String)) ≠ []) ∧
    (5 < ([1, 0, 0, 0, 0, 0] : List Nat).length) ∧
    (0 < ([1, 0, 0, 0, 0, 0] : List Nat).length) ∧
    (([1, 0, 0, 0, 0, 0] : List Nat).getD 5 0 % 4
      < ([some "MABCDEFGH1 2C3 4"] : List (Option String)).length) ∧
    (([some "MABCDEFGH1 2C3 4"] : List (Option String)).getD
        (([1, 0, 0, 0, 0, 0] : List Nat).getD 5 0 % 4) none
      = some "MABCDEFGH1 2C3 4") ∧
    (([1, 0, 0, 0, 0, 0] : List Nat).getD 0 0 % 16
      < (get2dArrayRows "MABCDEFGH1 2C3 4").length) ∧
    selectFrameRow (some 0) (some []) [1, 0, 0, 0, 0, 0]
        [some "MABCDEFGH1 2C3 4"]
      = Except.ok ((get2dArrayRows "MABCDEFGH1 2C3 4").getD
          (([1, 0, 0, 0, 0, 0] : List Nat).getD 0 0 % 16) []) := by
  have hlen : ([1, 0, 0, 0, 0, 0] : List Nat).getD 0 0 % 16
      < (get2dArrayRows "MABCDEFGH1 2C3 4").length := by
    simp [get2dArrayRows, parseSegment, trimCh, splitWsRuns, splitAux,
      squashNonDigits, digitsToNat, digitVal, isDigitCh, List.splitOn]
  refine ⟨by decide, by decide, by decide, by decide, by decide, hlen, ?_⟩
  exact claim3_row_selection 0 [] [1, 0, 0, 0, 0, 0] [some "MABCDEFGH1 2C3 4"]
    "MABCDEFGH1 2C3 4" (by decide) (by decide) (by decide) (by decide)
    (by decide) hlen

/-! ### Claim C4 -/

/-- C4: getIndices fails with the indices-not-found error exactly when the
marker is absent, the fetch fails, or the scan finds no match; otherwise it
returns the first matched literal as rowIndex and the remaining matched
literals in order as keyByteIndices. -/
theorem claim4_getIndices (markerVersion fetched : Option String) :
    ((∃ e, getIndices markerVersion fetched = Except.error e) ↔
      (markerVersion = none ∨ fetched = none ∨
        ∃ t, fetched = some t ∧ scanIndices t.toList = [])) ∧
    (∀ (n : Nat) (rest : List Nat),
      getIndices markerVersion fetched = Except.ok (n, rest) ↔
        ∃ v t, markerVersion = some v ∧ fetched = some t ∧
          scanIndices t.toList = n :: rest) := by
  rcases markerVersion with _ | v
  · simp [getIndices]
  rcases fetched with _ | t
  · simp [getIndices]
  rcases hscan : scanIndices t.toList with _ | ⟨n0, rest0⟩
  · have hscan' : scanIndices t.data = [] := hscan
    constructor
    · simp [getIndices, hscan, hscan']
    · intro n rest
      simp [getIndices, hscan, hscan']
  · have hscan' : scanIndices t.data = n0 :: rest0 := hscan
    constructor
    · simp [getIndices, hscan, hscan']
    · intro n rest
      simp only [getIndices, hscan, hscan']
      constructor
      · intro h
        simp only [Except.ok.injEq, Prod.mk.injEq] at h
        exact ⟨v, t, rfl, rfl, by rw [hscan, h.1, h.2]⟩
      · rintro ⟨v', t', hv, ht, hs⟩
        cases ht
        rw [hscan] at hs
        simp only [List.cons.injEq] at hs
        rw [hs.1, hs.2]

/-! ### Claim C5 -/

/-- C5 counterexample: a supplied timeOverride of 0 is not used; on this
clock value the computed timeNow is 5, not the supplied 0. -/
theorem claim5_counterexample :
    resolveTimeNow (some 0) 1682924405000 = 5 ∧ (5 : Int) ≠ 0 := by
  constructor
  · decide
  · decide

/-- C5 amended: a supplied nonzero timeOverride becomes timeNow; a missing
or zero override falls back to
floor((nowMillis - 1682924400000) / 1000), the zero case because the
source uses JS truthiness rather than an undefined test. -/
theorem claim5_time_resolution (t now : Int) :
    resolveTimeNow (some t) now
      = (if t = 0 then (now - 1682924400000).fdiv 1000 else t) ∧
    resolveTimeNow none now = (now - 1682924400000).fdiv 1000 := by
  constructor
  · by_cases h : t = 0
    · subst h
      simp [resolveTimeNow]
    · simp [resolveTimeNow, h]
  · simp [resolveTimeNow]

/-! ### Claim C7 -/

/-- C7 counterexample: with zero frames the table is [[]]; at row index 0
the lookup arr[0] yields the empty row, which is truthy, so the derivation
does not fail with the invalid-frame-data error: it selects the empty
row. -/
theorem claim7_counterexample :
    get2dArray [0, 0, 0, 0, 0, 0] [] = some [[]] ∧
    selectFrameRow (some 0) (some []) [0, 0, 0, 0, 0, 0] [] = Except.ok [] := by
  constructor
  · rfl
  · rfl

/-- C7 amended: zero frames give the table [[]] without error, and a later
derivation fails with the invalid-frame-data error exactly when the row
index keyBytes[DEFAULT_ROW_INDEX] mod 16 is nonzero; at row index 0 the
empty row is selected and passed on. -/
theorem claim7_empty_frames (keyBytes : List Nat) (ri : Nat) (kbIdx : List Nat)
    (hri : ri < keyBytes.length) :
    get2dArray keyBytes [] = some [[]] ∧
    selectFrameRow (some ri) (some kbIdx) keyBytes []
      = (if keyBytes.getD ri 0 % 16 = 0 then Except.ok []
          else Except.error "InvalidFrameData") := by
  constructor
  · rfl
  · simp only [selectFrameRow, get2dArray, List.isEmpty_nil, if_true, hri]
    by_cases h : keyBytes.getD ri 0 % 16 = 0
    · rw [h]
      simp
    · rw [if_neg h,
        if_neg (by simp only [List.length_cons, List.length_nil]; omega)]

theorem claim7_witness :
    (0 < ([7] : List Nat).length) ∧
    (get2dArray [7] [] = some [[]] ∧
      selectFrameRow (some 0) (some []) [7] []
        = (if ([7] : List Nat).getD 0 0 % 16 = 0 then Except.ok []
            else Except.error "InvalidFrameData")) := by
  exact ⟨by decide, claim7_empty_frames [7] 0 [] (by decide)⟩

theorem claim2_witness :
    ((⟨⟨none, []⟩, some "AAEC", none, some "ff", some 0, some [], true⟩ :
        Session).isInitialized = true) ∧
    ("AAEC" : String) ≠ "" ∧ ("ff" : String) ≠ "" ∧ (66 : Nat) < 256 ∧
    (∀ m : List Nat, ∀ b ∈ (fun _ : List Nat => List.replicate 32 7) m, b < 256) ∧
    (∀ b ∈ getKeyBytes "AAEC", b < 256) ∧
    (0 ≤ resolveTimeNow (some 1000) 0) ∧
    (resolveTimeNow (some 1000) 0 < 4294967296) ∧
    (∃ id, generateTransactionId (fun _ _ => "") (fun _ => List.replicate 32 7) 0 66
        ⟨⟨none, []⟩, some "AAEC", none, some "ff", some 0, some [], true⟩
        "GET" "/path" none none none (some 1000) = Except.ok id ∧
      decodeBase64NoPad id
        = 66 :: (payloadOf (fun _ => List.replicate 32 7) (getKeyBytes "AAEC")
            (resolveTimeNow (some 1000) 0) "GET" "/path" "ff").map
            (fun b => b ^^^ 66) ∧
      (decodeBase64NoPad id).tail.map (fun b => b ^^^ (decodeBase64NoPad id).headD 0)
        = payloadOf (fun _ => List.replicate 32 7) (getKeyBytes "AAEC")
            (resolveTimeNow (some 1000) 0) "GET" "/path" "ff" ∧
      ((decodeBase64NoPad id).tail.map
          (fun b => b ^^^ (decodeBase64NoPad id).headD 0)).take
            (getKeyBytes "AAEC").length
        = getKeyBytes "AAEC" ∧
      (leDecode4 (((decodeBase64NoPad id).tail.map
          (fun b => b ^^^ (decodeBase64NoPad id).headD 0)).drop
            (getKeyBytes "AAEC").length) : Int)
        = resolveTimeNow (some 1000) 0) := by
  refine ⟨rfl, by decide, by decide, by decide, ?_, by decide, by decide, by decide, ?_⟩
  · intro m b hb
    rw [List.mem_replicate] at hb
    omega
  · exact claim2_roundtrip (fun _ _ => "") (fun _ => List.replicate 32 7) 0 66
      ⟨⟨none, []⟩, some "AAEC", none, some "ff", some 0, some [], true⟩
      "GET" "/path" none (some 1000) "AAEC" "ff" rfl rfl (by decide) rfl (by decide)
      (by decide)
      (by intro m b hb; rw [List.mem_replicate] at hb; omega)
      (by decide) (by decide) (by decide)

/-! ### Claim C6 -/

/-- C6: the frame-table parse drops the first 9 characters, splits on the
curve command C, and each segment parses, through the replace/trim/split
pipeline, to exactly the base-10 values of its maximal digit runs; a
segment without digits reduces to the empty string and yields the empty
row rather than an error. -/
theorem claim6_frame_parse :
    (∀ d : String, get2dArrayRows d
      = ((d.toList.drop 9).splitOn 'C').map
          (fun seg => (digitRuns seg).map digitsToNat)) ∧
    (∀ seg : List Char, parseSegment seg = (digitRuns seg).map digitsToNat) ∧
    (∀ seg : List Char, (∀ c ∈ seg, isDigitCh c = false) →
      parseSegment seg = []) := by
  refine ⟨?_, parseSegment_eq_digitRuns, ?_⟩
  · intro d
    unfold get2dArrayRows
    exact List.map_congr_left (fun seg _ => parseSegment_eq_digitRuns seg)
  · intro seg hseg
    rw [parseSegment_eq_digitRuns]
    suffices h : digitRuns seg = [] by rw [h]; rfl
    cases seg with
    | nil => simp [digitRuns]
    | cons c cs =>
      have hc := hseg c (by simp)
      simp only [digitRuns, hc, if_false, Bool.false_eq_true]
      have : cs.dropWhile (fun d => !isDigitCh d) = [] := by
        rw [List.dropWhile_eq_nil_iff]
        intro a ha
        simp [hseg a (by simp [ha])]
      rw [this]
      simp [digitRuns]

theorem claim6_witness :
    (∀ c ∈ (['a', ','] : List Char), isDigitCh c = false) ∧
    parseSegment ['a', ','] = [] :=
  ⟨by decide, claim6_frame_parse.2.2 ['a', ','] (by decide)⟩

/-! ### Claim C8 -/

/-- C8: generateTransactionId never writes the session cache: for every
call, with or without key, animation-key or document overrides, the
session record after the call equals the session before it (the source
method assigns no this.* field). -/
theorem claim8_no_cache_writes (animate : List Nat → ℚ → String)
    (sha256 : List Nat → List Nat) (now : Int) (randomNum : Nat) (s : Session)
    (method path : String) (response : Option Doc)
    (keyArg animationKeyArg : Option String) (timeNowArg : Option Int) :
    (generateTransactionIdS animate sha256 now randomNum s method path response
        keyArg animationKeyArg timeNowArg).1 = s := by
  unfold generateTransactionIdS
  dsimp only
  repeat' first
  | rfl
  | split

/-! ### Claim C9 -/

/-- C9: with the random byte fixed, generateTransactionId is
deterministic: for a fixed session (key bytes, frame table, cached
animation key), fixed random byte and a fixed nonzero time argument, the
result does not depend on the ambient clock, so two such calls with the
same method and path return the same identifier. -/
theorem claim9_deterministic (animate : List Nat → ℚ → String)
    (sha256 : List Nat → List Nat) (now1 now2 : Int) (randomNum : Nat)
    (s : Session) (method path : String) (response : Option Doc)
    (keyArg animationKeyArg : Option String) (t : Int) (ht : t ≠ 0) :
    generateTransactionId animate sha256 now1 randomNum s method path response
        keyArg animationKeyArg (some t)
      = generateTransactionId animate sha256 now2 randomNum s method path response
        keyArg animationKeyArg (some t) := by
  have hres : ∀ now : Int, resolveTimeNow (some t) now = t := by
    intro now
    simp [resolveTimeNow, ht]
  unfold generateTransactionId generateTransactionIdS
  rw [hres now1, hres now2]

theorem claim9_witness :
    ((5 : Int) ≠ 0) ∧
    generateTransactionId (fun _ _ => "") (fun _ => []) 0 66
        ⟨⟨none, []⟩, some "AAEC", none, some "ff", some 0, some [], true⟩
        "GET" "/path" none none none (some 5)
      = generateTransactionId (fun _ _ => "") (fun _ => []) 987654321 66
        ⟨⟨none, []⟩, some "AAEC", none, some "ff", some 0, some [], true⟩
        "GET" "/path" none none none (some 5) :=
  ⟨by decide, claim9_deterministic (fun _ _ => "") (fun _ => []) 0 987654321 66
    ⟨⟨none, []⟩, some "AAEC", none, some "ff", some 0, some [], true⟩
    "GET" "/path" none none none 5 (by decide)⟩

/-! ### Claim C10 -/

/-- C10: the normalized time handed to the curve solver equals
frameTime / 4096 where frameTime is the left-to-right product, starting
from 1, of keyBytes[i] mod 16 over the key-byte indices in order, rounded
to the nearest multiple of 10; and getAnimationKey passes exactly this
value, next to the selected frame row, to animate. -/
theorem claim10_target_time :
    (∀ kbIdx keyBytes : List Nat,
      targetTimeOf kbIdx keyBytes
        = ((10 * (((kbIdx.map (fun i => keyBytes.getD i 0 % 16)).foldl
            (fun a b => a * b) 1 + 5) / 10) : Nat) : ℚ) / 4096) ∧
    (∀ (animate : List Nat → ℚ → String) (rowIdxSrc : Option Nat)
        (kbIdx keyBytes : List Nat) (frames : List (Option String)),
      getAnimationKey animate rowIdxSrc (some kbIdx) keyBytes frames
        = (selectFrameRow rowIdxSrc (some kbIdx) keyBytes frames).map
            (fun row => animate row (targetTimeOf kbIdx keyBytes))) := by
  constructor
  · intro kbIdx keyBytes
    unfold targetTimeOf frameTime jsRound frameTimeRaw
    rw [List.foldl_map]
    set R : Nat := kbIdx.foldl (fun a b => a * (keyBytes.getD b 0 % 16)) 1 with hR
    have hhalf : (R : ℚ) / 10 + 1 / 2 = ((R + 5 : ℕ) : ℚ) / 10 := by
      push_cast
      ring
    rw [hhalf, show ((10 : ℚ)) = ((10 : ℕ) : ℚ) from by norm_num,
      Rat.floor_natCast_div_natCast]
    have hid : ((R + 5 : ℕ) : ℤ) / ((10 : ℕ) : ℤ) = (((R + 5) / 10 : ℕ) : ℤ) :=
      (Int.natCast_div _ _).symm
    rw [hid]
    congr 1
    norm_cast
    ring_nf
  · intro animate rowIdxSrc kbIdx keyBytes frames
    unfold getAnimationKey
    cases selectFrameRow rowIdxSrc (some kbIdx) keyBytes frames with
    | error e => rfl
    | ok row => rfl

end XCT
